import Mathlib

/-!
Shallow embedding of a small HTTP/1.1 server core (src/main.rs): the header
table (`Headers`), the request parser and per-connection handler
(`handle_connection`), the response serializer (`send_response`), and the
per-connection accept loop (`driver`).

Modelling conventions:
* Bytes are modelled as `Char`; all traffic relevant to the verified
  properties is ASCII, on which Rust's `String` operations and the `Char`
  operations used here agree (in particular `to_lowercase` and
  `Char.toLower`).  `String::from_utf8(..).unwrap()` is therefore the
  identity at this level.
* A Rust `HashMap<String, String>` is an association list with distinct
  keys; `insert` replaces the value of an existing binding and otherwise
  appends.  Iteration order of a `HashMap` is unspecified, so nothing below
  depends on the order of the association list, only on its entry multiset.
* The connection is the list of remaining input characters plus an
  error-injection counter: `errAt = some k` makes the k-th following read
  operation fail with an I/O error (`k = 0`: the very next read), and
  `errAt = none` means no read ever fails.
* A Rust panic (`unwrap` / `expect` on a failed value) is modelled as a
  dedicated `panicked` outcome carrying no response.
* Loops are given explicit fuel; every use supplies `input.length + 1`
  fuel, which is never exhausted because each continuing iteration consumes
  at least one input character.
-/

deriving instance DecidableEq for Except

abbrev Str := List Char

/-- `str::to_lowercase` restricted to the ASCII range used by the server. -/
def toLowerStr (s : Str) : Str := s.map Char.toLower

/-- `HashMap::insert`: replace the value of an existing binding (keeping the
stored key), otherwise append a new binding. -/
def upsert (k v : Str) : List (Str × Str) → List (Str × Str)
  | [] => [(k, v)]
  | (k', v') :: rest => if k' = k then (k', v) :: rest else (k', v') :: upsert k v rest

/-- `HashMap::get` on the association-list model. -/
def lookupKV (k : Str) : List (Str × Str) → Option Str
  | [] => none
  | (k', v') :: rest => if k' = k then some v' else lookupKV k rest

/-- `read_until(b'\n')` on buffered input: the consumed chunk (newline
included when present) and the remaining input. At end of input the chunk is
whatever is left (possibly empty, the zero-length read). -/
def takeLine : List Char → List Char × List Char
  | [] => ([], [])
  | c :: rest =>
    if c = '\n' then ([c], rest)
    else
      let p := takeLine rest
      (c :: p.1, p.2)

def stripNLCR : List Char → List Char
  | '\n' :: '\r' :: rest => stripNLCR rest
  | l => l

/-- `str::trim_end_matches("\r\n")`: drop every trailing repetition of CRLF. -/
def trimEndCRLF (s : Str) : Str := (stripNLCR s.reverse).reverse

def splitSepGo (c0 : Char) (sr : Str) : Nat → Str → Str → List Str
  | 0, acc, s => [acc.reverse ++ s]
  | _ + 1, acc, [] => [acc.reverse]
  | fuel + 1, acc, c :: rest =>
    if c = c0 ∧ sr.isPrefixOf rest = true then
      acc.reverse :: splitSepGo c0 sr fuel [] (rest.drop sr.length)
    else splitSepGo c0 sr fuel (c :: acc) rest

/-- Rust `str::split` with a non-empty separator: leftmost, non-overlapping
matches; adjacent matches and string ends yield empty parts. -/
def splitSep (sep : Str) (s : Str) : List Str :=
  match sep with
  | [] => [s]
  | c0 :: sr => splitSepGo c0 sr (s.length + 1) [] s

/-- Number of occurrences of the two-character pattern `c0 c1` in a string,
counted at every position.  For the separator `": "` the two characters
differ, so occurrences can never overlap and this equals the number of
non-overlapping leftmost matches found by `str::split`. -/
def countSub2 (c0 c1 : Char) : Str → Nat
  | c :: d :: rest => (if c = c0 ∧ d = c1 then 1 else 0) + countSub2 c0 c1 (d :: rest)
  | _ => 0

/-- `str::parse::<usize>()` on a 64-bit target: an optional leading plus
sign, then at least one ASCII digit, with the value below `2 ^ 64`
(per-digit overflow checking is equivalent to a bound on the final value). -/
def parseUsize (s : Str) : Option Nat :=
  let digits :=
    match s with
    | '+' :: rest => rest
    | _ => s
  if digits = [] then none
  else if digits.all Char.isDigit = true then
    let v := digits.foldl (fun a c => a * 10 + (c.toNat - 48)) 0
    if v < 2 ^ 64 then some v else none
  else none

/-- `usize::to_string`. -/
def natToStr (n : Nat) : Str := (Nat.repr n).data

inductive HTTPCodes where
  | OK
  | NoContent
  | BadRequest
  deriving DecidableEq

def HTTPCodes.as_str : HTTPCodes → Str
  | .OK => "200 OK".data
  | .NoContent => "204 No content".data
  | .BadRequest => "400 Bad Request".data

inductive HTTPError where
  | ParsingError (header : Str)
  | MissingHeader (header : Str)
  | Unknown
  deriving DecidableEq

/-- The header table: `kv` is the lowercased lookup map, `raw` the
case-preserving serialization map. -/
structure Headers where
  kv : List (Str × Str)
  raw : List (Str × Str)
  deriving DecidableEq

def Headers.new : Headers := ⟨[], []⟩

def Headers.add (h : Headers) (key value : Str) : Headers :=
  ⟨upsert (toLowerStr key) value h.kv, upsert key value h.raw⟩

def Headers.get (h : Headers) (key : Str) : Option Str :=
  lookupKV (toLowerStr key) h.kv

def contentLengthH : Str := "Content-Length".data

def Headers.get_content_length (h : Headers) : Except HTTPError Nat :=
  match h.get contentLengthH with
  | some length =>
    match parseUsize length with
    | some l => .ok l
    | none => .error (.MissingHeader contentLengthH)
  | none => .error (.ParsingError contentLengthH)

def Headers.iter (h : Headers) : List (Str × Str) := h.raw

structure Request where
  method : Str
  path : Str
  version : Str
  headers : Headers
  body : Str
  keep_alive : Bool
  deriving DecidableEq

structure Conn where
  input : Str
  errAt : Option Nat
  deriving DecidableEq

/-- Advance the error-injection counter past one successful read. -/
def tick : Option Nat → Option Nat
  | none => none
  | some 0 => none
  | some (n + 1) => some n

structure Response where
  status : HTTPCodes
  headers : Headers
  body : Str
  deriving DecidableEq

def contentTypeH : Str := "Content-Type".data
def connectionH : Str := "Connection".data
def hostH : Str := "Host".data
def keepAliveV : Str := "keep-alive".data
def closeV : Str := "close".data
def defaultContentType : Str := "text/html; charset=utf-8".data
def contentTypeLowerRaw : Str := "Content-type".data
def appJsonV : Str := "application/json".data
def headerSep : Str := ": ".data
def spaceSep : Str := " ".data

/-- `send_response`: unconditionally add `Content-Length`, `Content-Type`
and `Connection` to the caller's table, then serialize the status line, the
table and the body.  The emitted header lines are exactly the entries of
the final `raw` map, so the `Response` records that final table. -/
def send_response (status : HTTPCodes) (headers : Headers) (keep_alive : Bool)
    (body : Str) : Response :=
  let h1 := headers.add contentLengthH (natToStr body.length)
  let h2 := h1.add contentTypeH defaultContentType
  let h3 := h2.add connectionH (if keep_alive then keepAliveV else closeV)
  ⟨status, h3, body⟩

def crlf : Str := "\r\n".data
def httpVersionPrefix : Str := "HTTP/1.1 ".data

/-- The sequence of `write_all` calls `send_response` makes on the buffered
stream, in order: the status line, one line per entry of the
case-preserving map (`HashMap` iteration order is unspecified; the claims
below depend only on fault behavior and never on the order), the blank
line, and the body when non-empty.  The final `flush` is a separate
operation, not a chunk. -/
def writeChunks (r : Response) : List Str :=
  (httpVersionPrefix ++ r.status.as_str ++ crlf)
    :: (r.headers.raw.map (fun e => e.1 ++ headerSep ++ e.2 ++ crlf)
      ++ [crlf]
      ++ (if r.body.length > 0 then [r.body] else []))

/-- Run the `write_all` calls against the stream's write buffer with the
error-injection counter: each call either faults (`unwrap` fires, the
response never completes) or appends its chunk to the buffer.  Returns the
buffered bytes and the counter state left for the `flush`. -/
def bufferWrites : List Str → Option Nat → Except Unit (Str × Option Nat)
  | [], werr => .ok ([], werr)
  | chunk :: rest, werr =>
    if werr = some 0 then .error ()
    else
      match bufferWrites rest (tick werr) with
      | .error _ => .error ()
      | .ok (buf, w') => .ok (chunk ++ buf, w')

/-- The I/O behavior of `send_response` on a `BufStream`: every response
here is far below the stream's buffer size, so no byte reaches the
transport before the final `flush`; a fault in any `write_all` or in the
`flush` panics the handler and the buffer is dropped, so the peer receives
response bytes only when every write and the flush succeed (the flush is
modelled as all-or-nothing).  `werr = some k` faults the k-th write
operation, counting the flush as the operation after the last write. -/
def writeResponse (status : HTTPCodes) (headers : Headers) (keep_alive : Bool)
    (body : Str) (werr : Option Nat) : Except Unit Str :=
  match bufferWrites (writeChunks (send_response status headers keep_alive body)) werr with
  | .error _ => .error ()
  | .ok (buf, w') => if w' = some 0 then .error () else .ok buf

/-- One iteration of the header loop after the length check: trim CRLF,
split on `": "`, skip unless exactly two parts, otherwise add the header
and update `keep_alive` on an exact `Connection`/`close` match. -/
def headerStep (r : Request) (chunk : Str) : Request :=
  match splitSep headerSep (trimEndCRLF chunk) with
  | [key, value] =>
    { r with
      headers := r.headers.add key value,
      keep_alive := if key = connectionH ∧ value = closeV then false else r.keep_alive }
  | _ => r

/-- The header-reading loop: read chunks up to a newline; a chunk of at most
two raw bytes ends the headers; a failed read panics (`unwrap`). -/
def headerLoop : Nat → Request → Conn → Except Unit (Request × Conn)
  | 0, _, _ => .error ()
  | fuel + 1, r, c =>
    if c.errAt = some 0 then .error ()
    else
      let chunk := (takeLine c.input).1
      let c' : Conn := ⟨(takeLine c.input).2, tick c.errAt⟩
      if chunk.length ≤ 2 then .ok (r, c')
      else headerLoop fuel (headerStep r chunk) c'

/-- The body stage: on a successful `get_content_length` of L, allocate an
L-byte zero buffer and perform a single `read` into it (taking at most the
remaining input, the rest of the buffer staying zero); a failed read panics.
On a failed `get_content_length` the request is left unchanged. -/
def bodyStage (r : Request) (c : Conn) : Except Unit (Request × Conn) :=
  match r.headers.get_content_length with
  | .ok length =>
    if c.errAt = some 0 then .error ()
    else
      let taken := c.input.take length
      .ok ({ r with body := taken ++ List.replicate (length - taken.length) (Char.ofNat 0) },
           ⟨c.input.drop length, tick c.errAt⟩)
  | .error _ => .ok (r, c)

inductive ParseResult where
  | eofClose
  | errLine
  | badLine (c : Conn)
  | panicked
  | done (r : Request) (c : Conn)
  deriving DecidableEq

/-- The request parser of `handle_connection`: request line, header loop,
body stage.  `errLine` is an I/O error on the request-line read, `eofClose`
the zero-length read, `badLine` a request line without exactly three
space-separated tokens, `panicked` an `unwrap` failure further in. -/
def parseRequest (c : Conn) : ParseResult :=
  if c.errAt = some 0 then .errLine
  else
    let chunk := (takeLine c.input).1
    let c1 : Conn := ⟨(takeLine c.input).2, tick c.errAt⟩
    if chunk.length = 0 then .eofClose
    else
      match splitSep spaceSep (trimEndCRLF chunk) with
      | [m, p, v] =>
        match headerLoop (c1.input.length + 1) ⟨m, p, v, Headers.new, [], true⟩ c1 with
        | .error _ => .panicked
        | .ok (r1, c2) =>
          match bodyStage r1 c2 with
          | .error _ => .panicked
          | .ok (r2, c3) => .done r2 c3
      | _ => .badLine c1

inductive Outcome where
  | ret (keepAlive : Bool)
  | panicked
  deriving DecidableEq

/-- The observable result of one `handle_connection` call: the responses
written to the connection, in order, and how the call ended. -/
structure ConnResult where
  sent : List Response
  outcome : Outcome
  deriving DecidableEq

def badResponse : Response := send_response .BadRequest Headers.new false []

/-- `handle_connection`: parse one request, then build the reply headers
(`Content-type: application/json` and the echoed `Host`, whose lookup is
`unwrap`ped) and send a `204` reflecting the request's `keep_alive`. -/
def handle_connection (c : Conn) : ConnResult × Conn :=
  match parseRequest c with
  | .eofClose => (⟨[], .ret false⟩, c)
  | .errLine => (⟨[badResponse], .ret false⟩, c)
  | .badLine c1 => (⟨[badResponse], .ret false⟩, c1)
  | .panicked => (⟨[], .panicked⟩, c)
  | .done r c3 =>
    match r.headers.get hostH with
    | none => (⟨[], .panicked⟩, c3)
    | some hostv =>
      let hdrs := (Headers.new.add contentTypeLowerRaw appJsonV).add hostH hostv
      (⟨[send_response .NoContent hdrs r.keep_alive []], .ret r.keep_alive⟩, c3)

/-- The per-connection loop of `main`: call `handle_connection` until it
asks not to keep the connection alive (or panics); collect every response
written on the connection. -/
def driver : Nat → Conn → List Response
  | 0, _ => []
  | fuel + 1, c =>
    let p := handle_connection c
    match p.1.outcome with
    | .ret true => p.1.sent ++ driver fuel p.2
    | _ => p.1.sent

/-- Number of entries of the serialization map whose name lowercases to `n`:
each such entry is emitted as one header line by `send_response`. -/
def countName (n : Str) (h : Headers) : Nat :=
  h.raw.countP (fun e => decide (toLowerStr e.1 = n))

/-- Keys of the association list are pairwise distinct; `HashMap`s satisfy
this and `upsert` preserves it. -/
abbrev NodupKeys (l : List (Str × Str)) : Prop := (l.map Prod.fst).Nodup

theorem lookup_upsert_self (k v : Str) (l : List (Str × Str)) :
    lookupKV k (upsert k v l) = some v := by
  induction l with
  | nil => simp [upsert, lookupKV]
  | cons e rest ih =>
    obtain ⟨k', v'⟩ := e
    by_cases hk : k' = k
    · subst hk; simp [upsert, lookupKV]
    · simp [upsert, lookupKV, hk, ih]

theorem lookup_upsert_ne (k k' v : Str) (l : List (Str × Str)) (hk : k ≠ k') :
    lookupKV k (upsert k' v l) = lookupKV k l := by
  induction l with
  | nil => simp [upsert, lookupKV, Ne.symm hk]
  | cons e rest ih =>
    obtain ⟨a, b⟩ := e
    by_cases ha : a = k'
    · subst ha; simp [upsert, lookupKV, Ne.symm hk]
    · simp [upsert, lookupKV, ha, ih]

theorem mem_upsert_self (k v : Str) (l : List (Str × Str)) :
    (k, v) ∈ upsert k v l := by
  induction l with
  | nil => simp [upsert]
  | cons e rest ih =>
    obtain ⟨a, b⟩ := e
    by_cases ha : a = k
    · subst ha; simp [upsert]
    · simp only [upsert, if_neg ha]
      exact List.mem_cons_of_mem _ ih

theorem mem_upsert_of_ne (k v x y : Str) (l : List (Str × Str))
    (hm : (x, y) ∈ l) (hx : x ≠ k) : (x, y) ∈ upsert k v l := by
  induction l with
  | nil => cases hm
  | cons e rest ih =>
    obtain ⟨a, b⟩ := e
    rcases List.mem_cons.mp hm with he | hm'
    · by_cases ha : a = k
      · exfalso; apply hx; rw [show x = a by exact congrArg Prod.fst he]; exact ha
      · simp only [upsert, if_neg ha]
        exact List.mem_cons.mpr (Or.inl he)
    · by_cases ha : a = k
      · subst ha; simp only [upsert, if_pos rfl]
        exact List.mem_cons_of_mem _ hm'
      · simp only [upsert, if_neg ha]
        exact List.mem_cons_of_mem _ (ih hm')

theorem mem_of_mem_upsert (k v : Str) (e : Str × Str) (l : List (Str × Str))
    (hm : e ∈ upsert k v l) : e.1 = k ∨ e ∈ l := by
  induction l with
  | nil =>
    simp only [upsert] at hm
    rcases List.mem_singleton.mp hm with rfl
    exact Or.inl rfl
  | cons p rest ih =>
    obtain ⟨a, b⟩ := p
    by_cases ha : a = k
    · subst ha
      simp only [upsert, if_pos rfl] at hm
      rcases List.mem_cons.mp hm with rfl | hm'
      · exact Or.inl rfl
      · exact Or.inr (List.mem_cons_of_mem _ hm')
    · simp only [upsert, if_neg ha] at hm
      rcases List.mem_cons.mp hm with rfl | hm'
      · exact Or.inr (List.mem_cons.mpr (Or.inl rfl))
      · rcases ih hm' with h | h
        · exact Or.inl h
        · exact Or.inr (List.mem_cons_of_mem _ h)

theorem nodupKeys_upsert (k v : Str) (l : List (Str × Str)) (h : NodupKeys l) :
    NodupKeys (upsert k v l) := by
  induction l with
  | nil => simp [upsert, NodupKeys]
  | cons e rest ih =>
    obtain ⟨a, b⟩ := e
    simp only [NodupKeys, List.map_cons, List.nodup_cons] at h
    by_cases ha : a = k
    · subst ha
      simpa [upsert, NodupKeys] using h
    · simp only [upsert, if_neg ha, NodupKeys, List.map_cons, List.nodup_cons]
      refine ⟨?_, ih h.2⟩
      intro hmem
      rcases List.mem_map.mp hmem with ⟨p, hp, hpa⟩
      rcases mem_of_mem_upsert k v p rest hp with h1 | h1
      · exact ha (hpa ▸ h1)
      · exact h.1 (List.mem_map.mpr ⟨p, h1, hpa⟩)

theorem two_mem_le_length {α : Type} {a b : α} {l : List α}
    (ha : a ∈ l) (hb : b ∈ l) (hne : a ≠ b) : 2 ≤ l.length := by
  induction l with
  | nil => cases ha
  | cons x xs ih =>
    rcases List.mem_cons.mp ha with rfl | ha'
    · rcases List.mem_cons.mp hb with rfl | hb'
      · exact absurd rfl hne
      · have := List.length_pos_of_mem hb'
        simp only [List.length_cons]; omega
    · have := List.length_pos_of_mem ha'
      simp only [List.length_cons]; omega

theorem two_le_countP {α : Type} {p : α → Bool} {a b : α} {l : List α}
    (ha : a ∈ l) (hb : b ∈ l) (hne : a ≠ b)
    (hpa : p a = true) (hpb : p b = true) : 2 ≤ l.countP p := by
  rw [List.countP_eq_length_filter]
  exact two_mem_le_length (List.mem_filter.mpr ⟨ha, hpa⟩)
    (List.mem_filter.mpr ⟨hb, hpb⟩) hne

theorem countName_upsert_other (n k v : Str) (l : List (Str × Str))
    (hk : ¬ toLowerStr k = n) :
    (upsert k v l).countP (fun e => decide (toLowerStr e.1 = n))
      = l.countP (fun e => decide (toLowerStr e.1 = n)) := by
  induction l with
  | nil => simp [upsert, hk]
  | cons e rest ih =>
    obtain ⟨a, b⟩ := e
    by_cases ha : a = k
    · subst ha; simp [upsert, List.countP_cons]
    · simp [upsert, ha, List.countP_cons, ih]

theorem countName_upsert_self (n k v : Str) (l : List (Str × Str))
    (hnd : NodupKeys l) (hk : toLowerStr k = n)
    (hall : ∀ e ∈ l, toLowerStr e.1 = n → e.1 = k) :
    (upsert k v l).countP (fun e => decide (toLowerStr e.1 = n)) = 1 := by
  induction l with
  | nil => simp [upsert, hk]
  | cons e rest ih =>
    obtain ⟨a, b⟩ := e
    simp only [NodupKeys, List.map_cons, List.nodup_cons] at hnd
    by_cases ha : a = k
    · subst ha
      have hz : rest.countP (fun e => decide (toLowerStr e.1 = n)) = 0 := by
        rw [List.countP_eq_zero]
        intro e he
        simp only [decide_eq_true_eq]
        intro hl
        exact hnd.1 (List.mem_map.mpr ⟨e, he, (hall e (List.mem_cons_of_mem _ he) hl).symm ▸ rfl⟩)
      rw [show upsert a v ((a, b) :: rest) = (a, v) :: rest by simp [upsert]]
      rw [List.countP_cons_of_pos _ _ (by simp [hk]), hz]
    · have hqa : ¬ toLowerStr a = n := by
        intro hl
        exact ha (hall (a, b) (List.mem_cons.mpr (Or.inl rfl)) hl)
      rw [show upsert k v ((a, b) :: rest) = (a, b) :: upsert k v rest by simp [upsert, ha]]
      rw [List.countP_cons_of_neg _ _ (by simp [hqa])]
      exact ih hnd.2 (fun e he hl => hall e (List.mem_cons_of_mem _ he) hl)

theorem countSub2_space_cons (b : Str) :
    countSub2 ':' ' ' (' ' :: b) = countSub2 ':' ' ' b := by
  cases b with
  | nil => rfl
  | cons b0 b' => simp [countSub2]

theorem countSub2_sep_cons (b : Str) :
    countSub2 ':' ' ' (':' :: ' ' :: b) = 1 + countSub2 ':' ' ' b := by
  simp [countSub2, countSub2_space_cons]

theorem countSub2_around_sep (a b : Str) :
    countSub2 ':' ' ' (a ++ ':' :: ' ' :: b)
      = countSub2 ':' ' ' a + 1 + countSub2 ':' ' ' b := by
  induction a with
  | nil =>
    have e0 : ([] : Str) ++ ':' :: ' ' :: b = ':' :: ' ' :: b := rfl
    have e2 : countSub2 ':' ' ' ([] : Str) = 0 := rfl
    rw [e0, countSub2_sep_cons, e2]
  | cons c a' ih =>
    cases a' with
    | nil =>
      have e1 : countSub2 ':' ' ' ((c :: ([] : Str)) ++ ':' :: ' ' :: b)
          = (if c = ':' ∧ (':' : Char) = ' ' then 1 else 0)
            + countSub2 ':' ' ' (':' :: ' ' :: b) := rfl
      have e2 : countSub2 ':' ' ' [c] = 0 := rfl
      rw [e1, countSub2_sep_cons, e2]
      simp
    | cons d a'' =>
      have e1 : countSub2 ':' ' ' ((c :: d :: a'') ++ ':' :: ' ' :: b)
          = (if c = ':' ∧ d = ' ' then 1 else 0)
            + countSub2 ':' ' ' ((d :: a'') ++ ':' :: ' ' :: b) := rfl
      have e2 : countSub2 ':' ' ' (c :: d :: a'')
          = (if c = ':' ∧ d = ' ' then 1 else 0) + countSub2 ':' ' ' (d :: a'') := rfl
      rw [e1, ih, e2]
      omega

theorem splitSepGo_length :
    ∀ (fuel : Nat) (s acc : Str), s.length < fuel →
      (splitSepGo ':' ([' ']) fuel acc s).length = countSub2 ':' ' ' s + 1 := by
  intro fuel
  induction fuel with
  | zero => intro s acc h; omega
  | succ f ih =>
    intro s acc h
    rcases s with _ | ⟨c, _ | ⟨d, rest⟩⟩
    · simp [splitSepGo, countSub2]
    · simp only [splitSepGo]
      rw [if_neg (by simp [List.isPrefixOf])]
      rw [ih [] (c :: acc) (by simp only [List.length_nil, List.length_cons] at h ⊢; omega)]
      simp [countSub2]
    · by_cases hm : c = ':' ∧ d = ' '
      · obtain ⟨rfl, rfl⟩ := hm
        simp only [splitSepGo]
        rw [if_pos (by simp [List.isPrefixOf])]
        rw [show (' ' :: rest).drop ([' '] : Str).length = rest from rfl]
        simp only [List.length_cons]
        rw [ih rest [] (by simp at h; omega), countSub2_sep_cons]
        omega
      · have hcond : ¬ (c = ':' ∧ ([' '] : Str).isPrefixOf (d :: rest) = true) := by
          intro hx
          apply hm
          refine ⟨hx.1, ?_⟩
          have h2 := hx.2
          simp [List.isPrefixOf] at h2
          exact h2.symm
        simp only [splitSepGo]
        rw [if_neg hcond]
        rw [ih (d :: rest) (c :: acc) (by simp at h ⊢; omega)]
        simp [countSub2, hm]

theorem splitSep_length_sep (s : Str) :
    (splitSep headerSep s).length = countSub2 ':' ' ' s + 1 :=
  splitSepGo_length (s.length + 1) s [] (by omega)

theorem splitSepGo_count_zero :
    ∀ (fuel : Nat) (s acc : Str), s.length < fuel → countSub2 ':' ' ' s = 0 →
      splitSepGo ':' ([' ']) fuel acc s = [acc.reverse ++ s] := by
  intro fuel
  induction fuel with
  | zero => intro s acc h _; omega
  | succ f ih =>
    intro s acc h hz
    rcases s with _ | ⟨c, _ | ⟨d, rest⟩⟩
    · simp [splitSepGo]
    · simp only [splitSepGo]
      rw [if_neg (by simp [List.isPrefixOf])]
      rw [ih [] (c :: acc) (by simp only [List.length_nil, List.length_cons] at h ⊢; omega) rfl]
      simp
    · have hm : ¬ (c = ':' ∧ d = ' ') := by
        intro hx
        simp [countSub2, hx.1, hx.2] at hz
      have hcond : ¬ (c = ':' ∧ ([' '] : Str).isPrefixOf (d :: rest) = true) := by
        intro hx
        apply hm
        refine ⟨hx.1, ?_⟩
        have h2 := hx.2
        simp [List.isPrefixOf] at h2
        exact h2.symm
      have hz' : countSub2 ':' ' ' (d :: rest) = 0 := by
        simpa [countSub2, hm] using hz
      simp only [splitSepGo]
      rw [if_neg hcond]
      rw [ih (d :: rest) (c :: acc) (by simp at h ⊢; omega) hz']
      simp

theorem splitSepGo_sep_mid :
    ∀ (fuel : Nat) (a acc b : Str), a.length + b.length + 2 < fuel →
      countSub2 ':' ' ' a = 0 → countSub2 ':' ' ' b = 0 →
      splitSepGo ':' ([' ']) fuel acc (a ++ ':' :: ' ' :: b) = [acc.reverse ++ a, b] := by
  intro fuel
  induction fuel with
  | zero => intro a acc b h _ _; omega
  | succ f ih =>
    intro a acc b h ha hb
    rcases a with _ | ⟨c, _ | ⟨d, a''⟩⟩
    · simp only [List.nil_append, splitSepGo]
      rw [if_pos (by simp [List.isPrefixOf])]
      rw [show (' ' :: b).drop ([' '] : Str).length = b from rfl]
      rw [splitSepGo_count_zero f b [] (by omega) hb]
      simp
    · have hcond : ¬ (c = ':' ∧ ([' '] : Str).isPrefixOf (':' :: ' ' :: b) = true) := by
        simp [List.isPrefixOf]
      simp only [List.cons_append, List.append_eq, List.nil_append, splitSepGo]
      rw [if_neg hcond]
      have hrec := ih [] (c :: acc) b (by simp at h ⊢; omega) rfl hb
      simp only [List.nil_append] at hrec
      rw [hrec]
      simp
    · have hm : ¬ (c = ':' ∧ d = ' ') := by
        intro hx
        simp [countSub2, hx.1, hx.2] at ha
      have hcond : ¬ (c = ':' ∧ ([' '] : Str).isPrefixOf (d :: (a'' ++ ':' :: ' ' :: b)) = true) := by
        intro hx
        apply hm
        refine ⟨hx.1, ?_⟩
        have h2 := hx.2
        simp [List.isPrefixOf] at h2
        exact h2.symm
      have ha' : countSub2 ':' ' ' (d :: a'') = 0 := by
        simpa [countSub2, hm] using ha
      have hstep : splitSepGo ':' ([' ']) (f + 1) acc ((c :: d :: a'') ++ ':' :: ' ' :: b)
          = splitSepGo ':' ([' ']) f (c :: acc) ((d :: a'') ++ ':' :: ' ' :: b) := by
        simp only [List.cons_append, List.append_eq, splitSepGo]
        rw [if_neg hcond]
      rw [hstep, ih (d :: a'') (c :: acc) b (by simp at h ⊢; omega) ha' hb]
      simp

theorem splitSep_two_parts (a b : Str) (ha : countSub2 ':' ' ' a = 0)
    (hb : countSub2 ':' ' ' b = 0) :
    splitSep headerSep (a ++ headerSep ++ b) = [a, b] := by
  have hshape : a ++ headerSep ++ b = a ++ ':' :: ' ' :: b := by
    rw [show (headerSep : Str) = ':' :: [' '] from rfl]
    simp
  rw [hshape]
  have hlen : a.length + b.length + 2 < (a ++ ':' :: ' ' :: b).length + 1 := by
    simp [List.length_append]
    omega
  exact (splitSepGo_sep_mid ((a ++ ':' :: ' ' :: b).length + 1) a [] b hlen ha hb).trans
    (by simp)

theorem bufferWrites_eq (chunks : List Str) :
    ∀ werr : Option Nat,
      bufferWrites chunks werr =
        (match werr with
         | none => .ok (chunks.flatten, none)
         | some k =>
           if k < chunks.length then .error ()
           else .ok (chunks.flatten, some (k - chunks.length))) := by
  induction chunks with
  | nil =>
    intro werr
    rcases werr with _ | k
    · simp [bufferWrites]
    · simp [bufferWrites]
  | cons ch rest ih =>
    intro werr
    rcases werr with _ | k
    · simp [bufferWrites, tick, ih none]
    · rcases k with _ | k'
      · simp [bufferWrites]
      · simp only [bufferWrites, show tick (some (k' + 1)) = some k' from rfl]
        rw [if_neg (by simp), ih (some k')]
        by_cases hk : k' < rest.length
        · simp [hk, Nat.succ_lt_succ hk]
        · have hk2 : ¬ (k' + 1 < rest.length + 1) := by omega
          simp [hk, hk2, Nat.succ_sub_succ]

theorem headerStep_body (r : Request) (chunk : Str) :
    (headerStep r chunk).body = r.body := by
  unfold headerStep
  split <;> rfl

theorem headerLoop_body (fuel : Nat) :
    ∀ (r : Request) (c : Conn) (r' : Request) (c' : Conn),
      headerLoop fuel r c = .ok (r', c') → r'.body = r.body := by
  induction fuel with
  | zero => intro r c r' c' h; simp [headerLoop] at h
  | succ f ih =>
    intro r c r' c' h
    simp only [headerLoop] at h
    split at h
    · cases h
    · split at h
      · rcases h with ⟨rfl, rfl⟩
        rfl
      · rw [ih _ _ _ _ h, headerStep_body]

theorem bodyStage_headers (r : Request) (c : Conn) (r' : Request) (c' : Conn)
    (h : bodyStage r c = .ok (r', c')) : r'.headers = r.headers := by
  unfold bodyStage at h
  split at h
  · split at h
    · cases h
    · rcases h with ⟨rfl, rfl⟩
      rfl
  · rcases h with ⟨rfl, rfl⟩
    rfl

theorem bodyStage_of_err (r : Request) (c : Conn) (e : HTTPError)
    (he : r.headers.get_content_length = .error e) : bodyStage r c = .ok (r, c) := by
  simp [bodyStage, he]

theorem parseRequest_badLine_eq (c : Conn) (he : ¬ c.errAt = some 0)
    (hne : ¬ (takeLine c.input).1.length = 0)
    (h3 : (splitSep spaceSep (trimEndCRLF (takeLine c.input).1)).length ≠ 3) :
    parseRequest c = .badLine ⟨(takeLine c.input).2, tick c.errAt⟩ := by
  simp only [parseRequest, if_neg he, if_neg hne]
  split
  · next m p v heq => exact absurd (by rw [heq]; rfl) h3
  · rfl

theorem exists_three_of_length {α : Type} (l : List α) (h : l.length = 3) :
    ∃ x y z, l = [x, y, z] := by
  rcases l with _ | ⟨x, _ | ⟨y, _ | ⟨z, _ | w⟩⟩⟩
  · simp at h
  · simp at h
  · simp at h
  · exact ⟨x, y, z, rfl⟩
  · simp at h

theorem parseRequest_done_body_of_err (c : Conn) (r : Request) (c' : Conn)
    (e : HTTPError) (hp : parseRequest c = .done r c')
    (he : r.headers.get_content_length = .error e) : r.body = [] := by
  simp only [parseRequest] at hp
  split at hp
  · cases hp
  · split at hp
    · cases hp
    · split at hp
      · next m p v heq =>
        split at hp
        · cases hp
        · next x1 r1 c2 hloop =>
          split at hp
          · cases hp
          · next x2 r2 c3 hbody =>
            rcases hp with ⟨rfl, rfl⟩
            have hhd : r.headers = r1.headers := bodyStage_headers r1 c2 r c' hbody
            have he1 : r1.headers.get_content_length = .error e := by rw [← hhd]; exact he
            have := bodyStage_of_err r1 c2 e he1
            rw [this] at hbody
            rcases hbody with ⟨rfl, rfl⟩
            exact headerLoop_body _ _ _ _ _ hloop
      · cases hp

def mGET : Str := "GET".data
def pRoot : Str := "/".data
def vHTTP11 : Str := "HTTP/1.1".data

/-- The request value right after a successful `GET / HTTP/1.1` request
line: empty header table, empty body, `keep_alive = true`. -/
def baseReq : Request := ⟨mGET, pRoot, vHTTP11, Headers.new, [], true⟩

def hostLowerN : Str := "host".data
def aV : Str := "a".data
def bV : Str := "b".data
def clLowerN : Str := "content-length".data
def v999 : Str := "999".data
def fiveV : Str := "5".data
def abV : Str := "ab".data
def threeV : Str := "3".data
def abcdeV : Str := "abcde".data
def abcV : Str := "abc".data
def deV : Str := "de".data
def c1exIn : Str := "GET / HTTP/1.1\r\nContent-Length: 5\r\n\r\nab".data
def connCloseLowerLine : Str := "connection: close\r\n".data
def xLine : Str := "X: a: b\r\n".data
def xN : Str := "X".data
def badIn : Str := "HELLO\r\nmore".data
def xColonLine : Str := "X: a:b\r\n".data
def acolonbV : Str := "a:b".data
def noSepLine : Str := "nosep\r\n".data
def reqNoHostIn : Str := "GET / HTTP/1.1\r\n\r\n".data
def reqWithHostIn : Str := "GET / HTTP/1.1\r\nHost: h\r\n\r\n".data
def xV : Str := "x".data

/-- C5: for all header names N1 and N2 that differ only in letter case
(same lowercasing) and every value v, `add(N1, v)` followed by `get(N2)`
returns `some v`: `add` stores the value under the lowercased key in the
lookup map and `get` queries under the lowercased name. -/
theorem add_get_case_insensitive (h : Headers) (N1 N2 v : Str)
    (hcase : toLowerStr N1 = toLowerStr N2) :
    (h.add N1 v).get N2 = some v := by
  simp only [Headers.add, Headers.get]
  rw [← hcase]
  exact lookup_upsert_self (toLowerStr N1) v h.kv

/-- C5 witness: `add("Host", "a")` then `get("host")` returns `"a"`. -/
theorem add_get_case_insensitive_witness :
    (Headers.new.add hostH aV).get hostLowerN = some aV :=
  add_get_case_insensitive Headers.new hostH hostLowerN aV (by decide)

/-- C9: `get_content_length` returns `.ok L` exactly when the
`Content-Length` header is present (case-insensitive lookup) and parses as
a non-negative integer L by the `usize` grammar; it returns the
`MissingHeader` fault exactly when the header is present but unparsable,
and the `ParsingError` fault exactly when the header is absent. -/
theorem get_content_length_taxonomy (h : Headers) :
    (∀ L, h.get_content_length = .ok L ↔
      ∃ s, h.get contentLengthH = some s ∧ parseUsize s = some L)
    ∧ (h.get_content_length = .error (.MissingHeader contentLengthH) ↔
      ∃ s, h.get contentLengthH = some s ∧ parseUsize s = none)
    ∧ (h.get_content_length = .error (.ParsingError contentLengthH) ↔
      h.get contentLengthH = none) := by
  rcases hg : h.get contentLengthH with _ | s
  · simp [Headers.get_content_length, hg]
  · rcases hu : parseUsize s with _ | L'
    · simp [Headers.get_content_length, hg, hu]
    · simp [Headers.get_content_length, hg, hu]

/-- C10: whenever the parser produces a request whose header table has no
`Host` entry, the per-request handler panics on `get("Host").unwrap()` and
writes no response at all on the connection. -/
theorem missing_host_header_panics (c : Conn) (r : Request) (c' : Conn)
    (hp : parseRequest c = .done r c') (hh : r.headers.get hostH = none) :
    (handle_connection c).1 = ⟨[], .panicked⟩ := by
  simp [handle_connection, hp, hh]

/-- C10 witness: the well-formed request `GET / HTTP/1.1` with no headers
at all parses successfully, and the handler panics with nothing sent. -/
theorem missing_host_header_witness :
    (handle_connection ⟨reqNoHostIn, none⟩).1 = ⟨[], .panicked⟩ :=
  missing_host_header_panics ⟨reqNoHostIn, none⟩ baseReq ⟨[], none⟩
    (by decide) (by decide)

/-- C2 counterexample: the header line `connection: close` (lowercase
name) is parsed and added to the table — `get("Connection")` afterwards
returns `"close"` — yet `keep_alive` stays `true`, because the source
compares the raw header name to `"Connection"` with case-sensitive string
equality.  The claim says any letter casing of the name sets
`keep_alive = false`. -/
theorem connection_close_lowercase_ignored_cex :
    (headerStep baseReq connCloseLowerLine).keep_alive = true
    ∧ (headerStep baseReq connCloseLowerLine).headers.get connectionH = some closeV := by
  decide

/-- C2 amended: the `Connection: close` check is case-sensitive in both
name and value: after processing a header line, `keep_alive` is `false`
exactly when it was already `false` or the line split into exactly the
two parts `"Connection"` and `"close"` verbatim. -/
theorem keep_alive_cleared_iff_exact (r : Request) (chunk : Str) :
    (headerStep r chunk).keep_alive = false ↔
      (r.keep_alive = false
        ∨ splitSep headerSep (trimEndCRLF chunk) = [connectionH, closeV]) := by
  unfold headerStep
  rcases hs : splitSep headerSep (trimEndCRLF chunk) with _ | ⟨k, _ | ⟨v, _ | ⟨w, rest⟩⟩⟩
  · simp
  · simp
  · by_cases hkv : k = connectionH ∧ v = closeV
    · simp [hkv.1, hkv.2]
    · have : ¬ [k, v] = [connectionH, closeV] := by
        intro hl
        simp only [List.cons.injEq, and_true] at hl
        exact hkv ⟨hl.1, hl.2⟩
      simp [hkv, this]
  · simp

/-- C4 counterexample: after `add("Host", "a")` and `add("host", "b")` the
lookup map has collapsed to one entry but the case-preserving map (and
hence `iter`) holds two entries for the case-insensitive name `host`,
contradicting the claim that both maps hold exactly one entry. -/
theorem case_collapse_fails_in_raw_cex :
    ((Headers.new.add hostH aV).add hostLowerN bV).iter.length = 2
    ∧ countName hostLowerN ((Headers.new.add hostH aV).add hostLowerN bV) = 2
    ∧ ((Headers.new.add hostH aV).add hostLowerN bV).kv.length = 1 := by
  decide

/-- C4 amended: two `add`s under names differing only in case collapse to
a single last-writer-wins entry in the lookup map only; the
case-preserving serialization map keeps one entry per exact spelling, so
it retains both values and `iter` yields at least two pairs for that
case-insensitive name. -/
theorem add_case_collapse_kv_only (h : Headers) (N1 N2 v1 v2 : Str)
    (hcase : toLowerStr N1 = toLowerStr N2) (hne : N1 ≠ N2) :
    ((h.add N1 v1).add N2 v2).get N1 = some v2
    ∧ ((h.add N1 v1).add N2 v2).get N2 = some v2
    ∧ lookupKV N1 ((h.add N1 v1).add N2 v2).raw = some v1
    ∧ lookupKV N2 ((h.add N1 v1).add N2 v2).raw = some v2
    ∧ 2 ≤ countName (toLowerStr N1) ((h.add N1 v1).add N2 v2) := by
  refine ⟨?_, ?_, ?_, ?_, ?_⟩
  · simp only [Headers.add, Headers.get]
    rw [hcase]
    exact lookup_upsert_self (toLowerStr N2) v2 _
  · simp only [Headers.add, Headers.get]
    rw [hcase]
    exact lookup_upsert_self (toLowerStr N2) v2 _
  · simp only [Headers.add]
    rw [lookup_upsert_ne N1 N2 v2 _ hne]
    exact lookup_upsert_self N1 v1 h.raw
  · simp only [Headers.add]
    exact lookup_upsert_self N2 v2 _
  · simp only [Headers.add, countName]
    have h1 : (N1, v1) ∈ upsert N2 v2 (upsert N1 v1 h.raw) :=
      mem_upsert_of_ne N2 v2 N1 v1 _ (mem_upsert_self N1 v1 h.raw) hne
    have h2 : (N2, v2) ∈ upsert N2 v2 (upsert N1 v1 h.raw) :=
      mem_upsert_self N2 v2 _
    refine two_le_countP h1 h2 ?_ (by simp) (by simp [← hcase])
    intro hl
    exact hne (congrArg Prod.fst hl)

/-- C4 amended witness: the general statement applied to `"Host"`/`"host"`
on the empty table. -/
theorem add_case_collapse_kv_only_witness :
    ((Headers.new.add hostH aV).add hostLowerN bV).get hostH = some bV
    ∧ ((Headers.new.add hostH aV).add hostLowerN bV).get hostLowerN = some bV
    ∧ lookupKV hostH ((Headers.new.add hostH aV).add hostLowerN bV).raw = some aV
    ∧ lookupKV hostLowerN ((Headers.new.add hostH aV).add hostLowerN bV).raw = some bV
    ∧ 2 ≤ countName (toLowerStr hostH) ((Headers.new.add hostH aV).add hostLowerN bV) :=
  add_case_collapse_kv_only Headers.new hostH hostLowerN aV bV (by decide) (by decide)

/-- C1 counterexample: `GET / HTTP/1.1` with `Content-Length: 5` but only
the two body bytes `ab` left on the stream.  The parser succeeds (no fatal
fault) and returns a body of length 5 that is the two available bytes
zero-padded, because the source performs a single `read` into a
zero-initialized buffer instead of `read_exact`; the claim says a short
read is a fatal fault and the body equals the next 5 stream bytes. -/
theorem short_read_silently_accepted_cex :
    parseRequest ⟨c1exIn, none⟩ =
      .done { method := mGET, path := pRoot, version := vHTTP11,
              headers := Headers.new.add contentLengthH fiveV,
              body := abV ++ List.replicate 3 (Char.ofNat 0),
              keep_alive := true } ⟨[], none⟩
    ∧ (abV ++ List.replicate 3 (Char.ofNat 0)).length = 5
    ∧ abV.length = 2 := by decide

/-- C1 amended: when `get_content_length` succeeds with L and no I/O error
occurs, the body stage performs one read of at most L bytes: the body is
the next `min L available` input bytes zero-padded to length exactly L (so
it equals the next L stream bytes when L bytes are available, and a short
read is silently zero-padded rather than fatal); when `get_content_length`
fails, the parsed request's body is empty. -/
theorem body_read_single_pass :
    (∀ (r : Request) (c : Conn) (L : Nat), c.errAt = none →
      r.headers.get_content_length = .ok L →
      bodyStage r c =
        .ok ({ r with body := c.input.take L
                ++ List.replicate (L - (c.input.take L).length) (Char.ofNat 0) },
             ⟨c.input.drop L, none⟩)
      ∧ (c.input.take L ++ List.replicate (L - (c.input.take L).length)
          (Char.ofNat 0)).length = L)
    ∧ (∀ (c : Conn) (r : Request) (c' : Conn) (e : HTTPError),
        parseRequest c = .done r c' → r.headers.get_content_length = .error e →
        r.body = []) := by
  constructor
  · intro r c L herr hcl
    constructor
    · simp [bodyStage, hcl, herr, tick]
    · simp only [List.length_append, List.length_take, List.length_replicate]
      omega
  · exact fun c r c' e hp he => parseRequest_done_body_of_err c r c' e hp he

/-- C1 amended witness: `Content-Length: 3` against the 5 available bytes
`abcde` reads exactly `abc` leaving `de`; and the request with no
`Content-Length` parses with an empty body. -/
theorem body_read_single_pass_witness :
    bodyStage ⟨mGET, pRoot, vHTTP11, Headers.new.add contentLengthH threeV, [], true⟩
        ⟨abcdeV, none⟩
      = .ok ({ method := mGET, path := pRoot, version := vHTTP11,
               headers := Headers.new.add contentLengthH threeV,
               body := abcV, keep_alive := true }, ⟨deV, none⟩)
    ∧ baseReq.body = [] := by
  have h1 := (body_read_single_pass.1
    ⟨mGET, pRoot, vHTTP11, Headers.new.add contentLengthH threeV, [], true⟩
    ⟨abcdeV, none⟩ 3 rfl (by decide)).1
  have h2 := body_read_single_pass.2 ⟨reqNoHostIn, none⟩ baseReq ⟨[], none⟩
    (HTTPError.ParsingError contentLengthH) (by decide) (by decide)
  exact ⟨by rw [h1]; decide, h2⟩

/-- Caller tables whose entries never spell the three server-set header
names with a non-canonical letter casing. -/
abbrev NoAlias (h : Headers) : Prop :=
  ∀ e ∈ h.raw,
    (toLowerStr e.1 = toLowerStr contentLengthH → e.1 = contentLengthH)
    ∧ (toLowerStr e.1 = toLowerStr contentTypeH → e.1 = contentTypeH)
    ∧ (toLowerStr e.1 = toLowerStr connectionH → e.1 = connectionH)

/-- C3 counterexample: a caller table already holding a `content-length`
entry (lowercase spelling).  The serialized output then contains two
headers whose name is case-insensitively `content-length` — the caller's
entry survives in the case-preserving map next to the server's — while the
claim promises exactly one regardless of the caller's casing. -/
theorem send_response_duplicate_header_cex :
    countName (toLowerStr contentLengthH)
      (send_response .OK (Headers.new.add clLowerN v999) true []).headers = 2 := by
  decide

/-- C3 amended: `send_response` unconditionally overwrites the three
headers in the case-insensitive lookup map (their looked-up values are
always the server's), and the serialized output contains exactly one
`Content-Length`, one `Content-Type` and one `Connection` header provided
the caller's table did not spell any of those names with a different
casing (and has distinct keys, as a `HashMap` does). -/
theorem send_response_overwrites (h : Headers) (ka : Bool) (status : HTTPCodes)
    (body : Str) :
    ((send_response status h ka body).headers.get contentLengthH
        = some (natToStr body.length)
      ∧ (send_response status h ka body).headers.get contentTypeH
        = some defaultContentType
      ∧ (send_response status h ka body).headers.get connectionH
        = some (if ka then keepAliveV else closeV))
    ∧ (NoAlias h → NodupKeys h.raw →
        countName (toLowerStr contentLengthH) (send_response status h ka body).headers = 1
        ∧ countName (toLowerStr contentTypeH) (send_response status h ka body).headers = 1
        ∧ countName (toLowerStr connectionH) (send_response status h ka body).headers = 1) := by
  constructor
  · refine ⟨?_, ?_, ?_⟩
    · simp only [send_response, Headers.add, Headers.get]
      rw [lookup_upsert_ne _ _ _ _ (by decide), lookup_upsert_ne _ _ _ _ (by decide)]
      exact lookup_upsert_self _ _ _
    · simp only [send_response, Headers.add, Headers.get]
      rw [lookup_upsert_ne _ _ _ _ (by decide)]
      exact lookup_upsert_self _ _ _
    · simp only [send_response, Headers.add, Headers.get]
      exact lookup_upsert_self _ _ _
  · intro hna hnd
    refine ⟨?_, ?_, ?_⟩
    · simp only [send_response, Headers.add, countName]
      rw [countName_upsert_other _ connectionH _ _ (by decide),
        countName_upsert_other _ contentTypeH _ _ (by decide)]
      exact countName_upsert_self _ contentLengthH _ _ hnd rfl
        (fun e he hl => (hna e he).1 hl)
    · simp only [send_response, Headers.add, countName]
      rw [countName_upsert_other _ connectionH _ _ (by decide)]
      refine countName_upsert_self _ contentTypeH _ _ (nodupKeys_upsert _ _ _ hnd) rfl ?_
      intro e he hl
      rcases mem_of_mem_upsert _ _ e _ he with h1 | h1
      · exact absurd (h1 ▸ hl) (by decide)
      · exact (hna e h1).2.1 hl
    · simp only [send_response, Headers.add, countName]
      refine countName_upsert_self _ connectionH _ _
        (nodupKeys_upsert _ _ _ (nodupKeys_upsert _ _ _ hnd)) rfl ?_
      intro e he hl
      rcases mem_of_mem_upsert _ _ e _ he with h1 | h1
      · exact absurd (h1 ▸ hl) (by decide)
      · rcases mem_of_mem_upsert _ _ e _ h1 with h2 | h2
        · exact absurd (h2 ▸ hl) (by decide)
        · exact (hna e h2).2.2 hl

/-- C3 amended witness: the general statement applied to the empty caller
table with `keep_alive = true` and an empty body. -/
theorem send_response_overwrites_witness :
    ((send_response HTTPCodes.OK Headers.new true []).headers.get contentLengthH
        = some (natToStr 0)
      ∧ (send_response HTTPCodes.OK Headers.new true []).headers.get contentTypeH
        = some defaultContentType
      ∧ (send_response HTTPCodes.OK Headers.new true []).headers.get connectionH
        = some keepAliveV)
    ∧ (countName (toLowerStr contentLengthH)
        (send_response HTTPCodes.OK Headers.new true []).headers = 1
      ∧ countName (toLowerStr contentTypeH)
        (send_response HTTPCodes.OK Headers.new true []).headers = 1
      ∧ countName (toLowerStr connectionH)
        (send_response HTTPCodes.OK Headers.new true []).headers = 1) := by
  have h := send_response_overwrites Headers.new true HTTPCodes.OK []
  exact ⟨h.1, h.2 (by decide) (by decide)⟩

/-- C6: a request line that does not split into exactly three
space-separated tokens makes the connection loop send exactly one response,
the 400 Bad Request, and stop (the handler returns `keep_alive = false`,
so no further request is processed), whatever else is on the stream and
however much fuel the loop is given. -/
theorem bad_request_line_single_400_close (c : Conn) (fuel : Nat)
    (he : c.errAt = none) (hne : (takeLine c.input).1 ≠ [])
    (h3 : (splitSep spaceSep (trimEndCRLF (takeLine c.input).1)).length ≠ 3) :
    driver (fuel + 1) c = [badResponse]
    ∧ (handle_connection c).1.outcome = .ret false
    ∧ badResponse.status = .BadRequest := by
  have hb := parseRequest_badLine_eq c (by simp [he])
    (by simpa [List.length_eq_zero] using hne) h3
  refine ⟨?_, ?_, rfl⟩
  · simp [driver, handle_connection, hb]
  · simp [handle_connection, hb]

/-- C6 witness: the request line `HELLO` (one token) yields exactly the
one 400 response and the loop stops, even with input left and fuel 3. -/
theorem bad_request_line_witness :
    driver 3 ⟨badIn, none⟩ = [badResponse]
    ∧ (handle_connection ⟨badIn, none⟩).1.outcome = .ret false
    ∧ badResponse.status = .BadRequest :=
  bad_request_line_single_400_close ⟨badIn, none⟩ 2 rfl (by decide) (by decide)

/-- C7 counterexample: an I/O error on the request-line read (not a
malformed request line) also produces a 400 Bad Request response before
the connection closes — the `Err` arm of the first read sends a response —
while the claim says every fault other than a malformed request line
terminates the connection with no response sent. -/
theorem request_line_io_error_sends_400_cex :
    (handle_connection ⟨([] : Str), some 0⟩).1 = ⟨[badResponse], .ret false⟩
    ∧ badResponse.status = .BadRequest
    ∧ (handle_connection ⟨([] : Str), some 0⟩).1.sent ≠ [] := by decide

/-- C7 amended: an I/O error on the request-line read is answered like a
malformed request line, with one 400 response and `keep_alive = false`.
Every other fault keeps the claimed behavior: a read fault at any header
read or at the body read panics (`unwrap`), and whenever the parser
panicked the handler terminates the connection with no response; a fault
in any of the response writes or in the flush panics the handler with no
response bytes reaching the transport (the buffered bytes are dropped),
and the full response reaches the transport exactly when no write fault
occurs. -/
theorem io_fault_response_behavior :
    (∀ c : Conn, c.errAt = some 0 →
      (handle_connection c).1 = ⟨[badResponse], .ret false⟩)
    ∧ (∀ (fuel : Nat) (r : Request) (c : Conn), c.errAt = some 0 →
      headerLoop (fuel + 1) r c = .error ())
    ∧ (∀ (r : Request) (c : Conn) (L : Nat), c.errAt = some 0 →
      r.headers.get_content_length = .ok L → bodyStage r c = .error ())
    ∧ (∀ c : Conn, parseRequest c = .panicked →
      (handle_connection c).1 = ⟨[], .panicked⟩)
    ∧ (∀ (status : HTTPCodes) (h : Headers) (ka : Bool) (body : Str) (k : Nat),
      k ≤ (writeChunks (send_response status h ka body)).length →
      writeResponse status h ka body (some k) = .error ())
    ∧ (∀ (status : HTTPCodes) (h : Headers) (ka : Bool) (body : Str),
      writeResponse status h ka body none
        = .ok (writeChunks (send_response status h ka body)).flatten) := by
  refine ⟨?_, ?_, ?_, ?_, ?_, ?_⟩
  · intro c hc
    simp [handle_connection, parseRequest, hc]
  · intro fuel r c hc
    simp [headerLoop, hc]
  · intro r c L hc hcl
    simp [bodyStage, hcl, hc]
  · intro c hp
    simp [handle_connection, hp]
  · intro status h ka body k hk
    unfold writeResponse
    rw [bufferWrites_eq]
    by_cases hlt : k < (writeChunks (send_response status h ka body)).length
    · simp [hlt]
    · have h0 : k - (writeChunks (send_response status h ka body)).length = 0 := by omega
      simp [hlt, h0]
  · intro status h ka body
    unfold writeResponse
    rw [bufferWrites_eq]
    simp

/-- C7 amended witness: the six parts at concrete inputs: an error on the
very first read; an error entering the header loop; an error on the body
read (both in isolation and, via the panic clause, as the whole handler
with the fault on the first header read of `GET / HTTP/1.1` and on the
body read of a `Content-Length: 5` request); a fault on the first write,
on the flush, and a fault-free run of the serializer. -/
theorem io_fault_witness :
    (handle_connection ⟨xV, some 0⟩).1 = ⟨[badResponse], .ret false⟩
    ∧ headerLoop 1 baseReq ⟨[], some 0⟩ = .error ()
    ∧ bodyStage ⟨mGET, pRoot, vHTTP11, Headers.new.add contentLengthH threeV, [], true⟩
        ⟨abcdeV, some 0⟩ = .error ()
    ∧ (handle_connection ⟨reqWithHostIn, some 1⟩).1 = ⟨[], .panicked⟩
    ∧ (handle_connection ⟨c1exIn, some 3⟩).1 = ⟨[], .panicked⟩
    ∧ writeResponse HTTPCodes.NoContent Headers.new true [] (some 0) = .error ()
    ∧ writeResponse HTTPCodes.NoContent Headers.new true [] (some 5) = .error ()
    ∧ writeResponse HTTPCodes.NoContent Headers.new true [] none
        = .ok (writeChunks (send_response HTTPCodes.NoContent Headers.new true [])).flatten :=
  ⟨io_fault_response_behavior.1 ⟨xV, some 0⟩ rfl,
   io_fault_response_behavior.2.1 0 baseReq ⟨[], some 0⟩ rfl,
   io_fault_response_behavior.2.2.1
     ⟨mGET, pRoot, vHTTP11, Headers.new.add contentLengthH threeV, [], true⟩
     ⟨abcdeV, some 0⟩ 3 rfl (by decide),
   io_fault_response_behavior.2.2.2.1 ⟨reqWithHostIn, some 1⟩ (by decide),
   io_fault_response_behavior.2.2.2.1 ⟨c1exIn, some 3⟩ (by decide),
   io_fault_response_behavior.2.2.2.2.1 HTTPCodes.NoContent Headers.new true [] 0 (by decide),
   io_fault_response_behavior.2.2.2.2.1 HTTPCodes.NoContent Headers.new true [] 5 (by decide),
   io_fault_response_behavior.2.2.2.2.2 HTTPCodes.NoContent Headers.new true []⟩

/-- C8 counterexample: the header line `X: a: b` contains the `": "`
separator, yet it is skipped entirely (the request is unchanged and no `X`
header is added), because the source requires the split to yield exactly
two parts; the claim says it is parsed as name `X` with value `a: b` and
that only lines with no separator are ignored. -/
theorem double_separator_line_skipped_cex :
    headerStep baseReq xLine = baseReq
    ∧ (headerStep baseReq xLine).headers.get xN = none := by decide

/-- C8 amended: a header line is accepted exactly when it contains exactly
one occurrence of the `": "` separator: it is then split at that
occurrence into the name (the text before) and the value (the text after,
which may itself contain colons not followed by a space, as in `X: a:b`),
and added with the `Connection`/`close` update; lines with zero
occurrences of `": "` and lines with two or more occurrences are both
ignored, leaving the request unchanged. -/
theorem header_line_exactly_one_separator :
    (∀ (r : Request) (chunk a b : Str),
      trimEndCRLF chunk = a ++ headerSep ++ b →
      countSub2 ':' ' ' (trimEndCRLF chunk) = 1 →
      headerStep r chunk =
        { r with headers := r.headers.add a b,
                 keep_alive := if a = connectionH ∧ b = closeV then false
                               else r.keep_alive })
    ∧ (∀ (r : Request) (chunk : Str),
      countSub2 ':' ' ' (trimEndCRLF chunk) ≠ 1 → headerStep r chunk = r) := by
  constructor
  · intro r chunk a b ht hcount
    rw [ht] at hcount
    rw [show (headerSep : Str) = ':' :: [' '] from rfl] at hcount
    rw [show a ++ (':' :: ([' '] : Str)) ++ b = a ++ ':' :: ' ' :: b by simp] at hcount
    rw [countSub2_around_sep] at hcount
    have ha : countSub2 ':' ' ' a = 0 := by omega
    have hb : countSub2 ':' ' ' b = 0 := by omega
    unfold headerStep
    rw [ht, splitSep_two_parts a b ha hb]
  · intro r chunk hcount
    have hlen : (splitSep headerSep (trimEndCRLF chunk)).length ≠ 2 := by
      rw [splitSep_length_sep]
      omega
    unfold headerStep
    split
    · next key value heq => exact absurd (by rw [heq]; rfl) hlen
    · rfl

/-- C8 amended witness: `X: a:b` (one separator, with a colon inside the
value) is added as name `X`, value `a:b`; `X: a: b` (two separators) and
`nosep` (no separator) leave the request unchanged. -/
theorem header_line_witness :
    headerStep baseReq xColonLine =
      { baseReq with headers := baseReq.headers.add xN acolonbV,
                     keep_alive := true }
    ∧ headerStep baseReq xLine = baseReq
    ∧ headerStep baseReq noSepLine = baseReq := by
  refine ⟨?_, header_line_exactly_one_separator.2 baseReq xLine (by decide),
    header_line_exactly_one_separator.2 baseReq noSepLine (by decide)⟩
  have h := header_line_exactly_one_separator.1 baseReq xColonLine xN acolonbV
    (by decide) (by decide)
  rw [h]
  decide
